import Mathlib

/-!
Verification development for the solvent-accessibility engine of
src/src/generic/vacc.c (class Vacc of APBS): a shallow embedding of the
grid-indexed accessibility predicates, the spline-smoothed accessibility,
the quadrature sphere generator and the SASA estimator, together with
theorems settling the specified properties.

Doubles are modelled by real numbers; the C cast (int) is modelled by
truncation toward zero; VASSERT failures and fatal error paths are
modelled by Option results (none = abort).
-/

noncomputable section

open Classical

/-- A point or vector in three-dimensional space, mirroring the double[3]
arrays of vacc.c. -/
structure Vec3 where
  x : ℝ
  y : ℝ
  z : ℝ

/-- An atom: position and van der Waals radius (the parts of Vatom that
vacc.c reads). -/
structure Vatom where
  pos : Vec3
  radius : ℝ

/-- Default atom used for out-of-range list access. -/
def defaultAtom : Vatom := ⟨⟨0, 0, 0⟩, 0⟩

/-- Valist_getAtom: atoms are identified by their index in the list. -/
def getAtom (alist : List Vatom) (i : ℕ) : Vatom := alist.getD i defaultAtom

/-- Squared Euclidean distance: the VSQR sums computed in vacc.c. -/
def dist2 (a b : Vec3) : ℝ :=
  (a.x - b.x) ^ 2 + (a.y - b.y) ^ 2 + (a.z - b.z) ^ 2

/-- vec = r*u + center: a probe-sphere sample point as assembled in
Vacc_molAcc, Vacc_fastMolAcc and Vacc_atomSASA. -/
def samplePoint (center : Vec3) (r : ℝ) (u : Vec3) : Vec3 :=
  ⟨r * u.x + center.x, r * u.y + center.y, r * u.z + center.z⟩

/-- The C cast (int) applied to a double: truncation toward zero. -/
def ctrunc (r : ℝ) : ℤ := if 0 ≤ r then ⌊r⌋ else ⌈r⌉

/-- The accessibility engine state as used after construction: the
borrowed atom list, the maximum supported probe radius, grid dimensions,
grid spacings, the grid lower corner, the quadrature sphere points and
the per-cell buckets of atom indices (natoms is recoverable as the
bucket length). -/
structure Vacc where
  alist : List Vatom
  max_radius : ℝ
  nx : ℤ
  ny : ℤ
  nz : ℤ
  hx : ℝ
  hy : ℝ
  hzed : ℝ
  lc : Vec3
  sphere : List Vec3
  buckets : ℤ → ℤ → ℤ → List ℕ

/-- centeri = (int)((center[0] - grid_lower_corner[0])/hx). -/
def cellI (v : Vacc) (c : Vec3) : ℤ := ctrunc ((c.x - v.lc.x) / v.hx)

/-- centerj, as cellI for the y axis. -/
def cellJ (v : Vacc) (c : Vec3) : ℤ := ctrunc ((c.y - v.lc.y) / v.hy)

/-- centerk, as cellI for the z axis. -/
def cellK (v : Vacc) (c : Vec3) : ℤ := ctrunc ((c.z - v.lc.z) / v.hzed)

/-- The bounds check shared by every query: the point is outside the
indexed grid box. -/
def offGrid (v : Vacc) (c : Vec3) : Prop :=
  cellI v c < 0 ∨ v.nx ≤ cellI v c ∨ cellJ v c < 0 ∨ v.ny ≤ cellJ v c ∨
    cellK v c < 0 ∨ v.nz ≤ cellK v c

/-- The bucket of the cell containing the point. -/
def bucketAt (v : Vacc) (c : Vec3) : List ℕ :=
  v.buckets (cellI v c) (cellJ v c) (cellK v c)

/-- Vacc_vdwAcc: hard-sphere accessibility.  1.0 off the grid; 0.0 when
some bucket atom has squared distance to the point strictly below its
squared radius; else 1.0. -/
def Vacc_vdwAcc (v : Vacc) (center : Vec3) : ℝ :=
  if offGrid v center then 1
  else if ∃ id ∈ bucketAt v center,
      dist2 center (getAtom v.alist id).pos < (getAtom v.alist id).radius ^ 2
    then 0
  else 1

/-- The loop body of ivdwAccExclus after the precondition test: 1 when
accessible under inflation by the given probe radius, excluding atomID
(and excluding zero-radius atoms); 0 otherwise. -/
def ivdwPure (v : Vacc) (center : Vec3) (radius : ℝ) (atomID : ℤ) : ℝ :=
  if offGrid v center then 1
  else if ∃ id ∈ bucketAt v center, (id : ℤ) ≠ atomID ∧
      0 < (getAtom v.alist id).radius ∧
      dist2 (getAtom v.alist id).pos center <
        ((getAtom v.alist id).radius + radius) ^ 2
    then 0
  else 1

/-- ivdwAccExclus: aborts (VASSERT(0)) when the probe radius exceeds
max_radius, else classifies the point. -/
def ivdwAccExclus (v : Vacc) (center : Vec3) (radius : ℝ) (atomID : ℤ) :
    Option ℝ :=
  if v.max_radius < radius then none
  else some (ivdwPure v center radius atomID)

/-- Vacc_ivdwAcc: inflated van der Waals accessibility, excluding no atom. -/
def Vacc_ivdwAcc (v : Vacc) (center : Vec3) (radius : ℝ) : Option ℝ :=
  ivdwAccExclus v center radius (-1)

/-- Vacc_molAcc: molecular (reentrant) surface accessibility with the two
cheap pre-checks; the first Vacc_ivdwAcc call aborts when the radius
exceeds max_radius. -/
def Vacc_molAcc (v : Vacc) (center : Vec3) (radius : ℝ) : Option ℝ :=
  if v.max_radius < radius then none
  else some (
    if ivdwPure v center radius (-1) = 1 then 1
    else if Vacc_vdwAcc v center = 0 then 0
    else if ∃ u ∈ v.sphere,
        ivdwPure v (samplePoint center radius u) radius (-1) ≠ 0 then 1
    else 0)

/-- Vacc_fastMolAcc: only the sphere-sampling stage; with an empty sphere
set the loop never runs (and never aborts) and 0.0 is returned. -/
def Vacc_fastMolAcc (v : Vacc) (center : Vec3) (radius : ℝ) : Option ℝ :=
  if v.sphere = [] then some 0
  else if v.max_radius < radius then none
  else some (
    if ∃ u ∈ v.sphere,
        ivdwPure v (samplePoint center radius u) radius (-1) ≠ 0 then 1
    else 0)

/-- Vacc_splineAccAtom: the per-atom factor of the spline-smoothed
characteristic function.  Note the source test is radius > 1.0 (not
radius > 0.0 as its comment about zero-radius atoms suggests). -/
def Vacc_splineAccAtom (v : Vacc) (center : Vec3) (win infrad : ℝ)
    (atomID : ℕ) : ℝ :=
  let atom := getAtom v.alist atomID
  if 1 < atom.radius then
    let arad := atom.radius + infrad
    let stot := arad + win
    let sctot := max 0 (arad - win)
    let dist := Real.sqrt (dist2 atom.pos center)
    if dist ≤ sctot then 0
    else if stot ≤ dist then 1
    else
      let sm := dist - arad + win
      0.75 * sm ^ 2 * (1 / win ^ 2) - 0.25 * sm ^ 3 * (1 / win ^ 3)
  else 1

/-- Vacc_splineAccGradAtom: gradient of the per-atom spline factor; zero
outside the smoothing window and for atoms with radius ≤ 0; aborts
(VASSERT) if the factor value is not positive inside the window. -/
def Vacc_splineAccGradAtom (v : Vacc) (center : Vec3) (win infrad : ℝ)
    (atomID : ℕ) : Option Vec3 :=
  let atom := getAtom v.alist atomID
  if 0 < atom.radius then
    let arad := atom.radius + infrad
    let apos := atom.pos
    let dist := Real.sqrt (dist2 apos center)
    if dist ≤ arad - win then some ⟨0, 0, 0⟩
    else if arad + win ≤ dist then some ⟨0, 0, 0⟩
    else
      let sm := dist - arad + win
      let mychi := 0.75 * sm ^ 2 * (1 / win ^ 2) - 0.25 * sm ^ 3 * (1 / win ^ 3)
      let mygrad := 1.5 * sm * (1 / win ^ 2) - 0.75 * sm ^ 2 * (1 / win ^ 3)
      if 0 < mychi then
        some ⟨-(mygrad / mychi) * ((center.x - apos.x) / dist),
              -(mygrad / mychi) * ((center.y - apos.y) / dist),
              -(mygrad / mychi) * ((center.z - apos.z) / dist)⟩
      else none
  else some ⟨0, 0, 0⟩

/-- Modelled from the spec: VSMALL, the small underflow epsilon of the
Vacc_splineAcc short circuit; its defining header is not under src/, and
the spec calls it only a small epsilon; the customary APBS value 1e-12
is used. -/
def VSMALL : ℝ := 1 / 10 ^ 12

/-- The Vacc_splineAcc product loop: atomFlags dedup (seen), running
product (value), early return once the product drops below VSMALL. -/
def splineLoop (v : Vacc) (c : Vec3) (win infrad : ℝ) :
    List ℕ → List ℕ → ℝ → ℝ
  | [], _, value => value
  | id :: rest, seen, value =>
      if id ∈ seen then splineLoop v c win infrad rest seen value
      else if value * Vacc_splineAccAtom v c win infrad id < VSMALL then
        value * Vacc_splineAccAtom v c win infrad id
      else splineLoop v c win infrad rest (id :: seen)
        (value * Vacc_splineAccAtom v c win infrad id)

/-- The distinct atom indices of a list, keeping first occurrences, with
an accumulator of indices already seen: the atomFlags dedup. -/
def distinctFirst : List ℕ → List ℕ → List ℕ
  | [], _ => []
  | id :: rest, seen =>
      if id ∈ seen then distinctFirst rest seen
      else id :: distinctFirst rest (id :: seen)

/-- The full product of per-atom spline factors over the distinct atoms
of the bucket of the cell containing the point. -/
def bucketProd (v : Vacc) (c : Vec3) (win infrad : ℝ) : ℝ :=
  ((distinctFirst (bucketAt v c) []).map (Vacc_splineAccAtom v c win infrad)).prod

/-- Vacc_splineAcc: aborts when max_radius < win + infrad; 1.0 off the
grid; otherwise the dedup product loop over the bucket of the cell
containing the point. -/
def Vacc_splineAcc (v : Vacc) (c : Vec3) (win infrad : ℝ) : Option ℝ :=
  if v.max_radius < win + infrad then none
  else if offGrid v c then some 1
  else some (splineLoop v c win infrad (bucketAt v c) [] 1)

/-- ntheta = VRINT(sqrt(pi*npts/4)); VRINT (not under src/) rounds to the
nearest integer, half away from zero for the nonnegative arguments used
here, which is Lean round on nonnegative input. -/
def nthetaOf (npts : ℕ) : ℕ :=
  (round (Real.sqrt (Real.pi * ((npts : ℝ) / 4)))).toNat

/-- dtheta = pi/ntheta. -/
def dthetaOf (npts : ℕ) : ℝ := Real.pi / (nthetaOf npts : ℝ)

/-- theta = dtheta*itheta. -/
def thetaOf (npts : ℕ) (itheta : ℕ) : ℝ := dthetaOf npts * (itheta : ℝ)

/-- nphi = VRINT(sin(theta)*nphimax) with nphimax = 2*ntheta. -/
def nphiOf (npts : ℕ) (itheta : ℕ) : ℕ :=
  (round (Real.sin (thetaOf npts itheta) * (2 * (nthetaOf npts : ℝ)))).toNat

/-- One latitude ring of quadrature points: nphi azimuths phi = dphi*iphi
with dphi = 2*pi/nphi; empty when nphi = 0 (the skipped rings). -/
def ringOf (npts : ℕ) (itheta : ℕ) : List Vec3 :=
  (List.range (nphiOf npts itheta)).map fun (iphi : ℕ) =>
    ⟨Real.cos (2 * Real.pi / (nphiOf npts itheta : ℝ) * (iphi : ℝ)) *
        Real.sin (thetaOf npts itheta),
      Real.sin (2 * Real.pi / (nphiOf npts itheta : ℝ) * (iphi : ℝ)) *
        Real.sin (thetaOf npts itheta),
      Real.cos (thetaOf npts itheta)⟩

/-- Vacc_sphere: the assigned points in ring order together with the
final nactual count written back through npts. -/
def Vacc_sphere (npts : ℕ) : List Vec3 × ℕ :=
  ((List.range (nthetaOf npts)).flatMap (ringOf npts),
    ((List.range (nthetaOf npts)).flatMap (ringOf npts)).length)

/-- The first counting pass of Vacc_sphere: nactual accumulated as the
sum of nphi over every ring, including rings with nphi = 0. -/
def sphereCountPass (npts : ℕ) : ℕ :=
  ((List.range (nthetaOf npts)).map (nphiOf npts)).sum

/-- The accessible-sample count of Vacc_atomSASA: samples on the sphere
of radius (atomRadius + srad) about the atom, tested with the atom
itself excluded. -/
def sasaCount (v : Vacc) (srad : ℝ) (iatom : ℕ) : ℕ :=
  (v.sphere.filter fun u =>
    decide (ivdwPure v
      (samplePoint (getAtom v.alist iatom).pos
        ((getAtom v.alist iatom).radius + srad) u) srad (iatom : ℤ) ≠ 0)).length

/-- The area value computed by Vacc_atomSASA:
(accessible/nsphere)*4*pi*(tRad+srad)^2. -/
def sasaVal (v : Vacc) (srad : ℝ) (iatom : ℕ) : ℝ :=
  ((sasaCount v srad iatom : ℝ) / (v.sphere.length : ℝ)) * 4 * Real.pi *
    ((getAtom v.alist iatom).radius + srad) *
    ((getAtom v.alist iatom).radius + srad)

/-- Vacc_atomSASA: aborts only through ivdwAccExclus, hence exactly when
there is at least one sample and srad exceeds max_radius. -/
def Vacc_atomSASA (v : Vacc) (srad : ℝ) (iatom : ℕ) : Option ℝ :=
  if v.sphere ≠ [] ∧ v.max_radius < srad then none
  else some (sasaVal v srad iatom)

/-- Vacc_totalSASA: the sum of the per-atom areas over all atoms; aborts
exactly when the first per-atom call does. -/
def Vacc_totalSASA (v : Vacc) (srad : ℝ) : Option ℝ :=
  if v.alist ≠ [] ∧ v.sphere ≠ [] ∧ v.max_radius < srad then none
  else some (((List.range v.alist.length).map (sasaVal v srad)).sum)

/-- Modelled from the spec: VLARGE, the large sentinel from a header not
under src/, used only to initialise the bounding-box extent folds of the
constructor. -/
def VLARGE : ℝ := 10 ^ 9

/-- rmax: the largest atom radius, accumulated from -1.0. -/
def rmaxOf (alist : List Vatom) : ℝ := (alist.map Vatom.radius).foldl max (-1)

/-- x_min accumulated from VLARGE. -/
def xminOf (alist : List Vatom) : ℝ :=
  (alist.map fun a => a.pos.x).foldl min VLARGE

/-- x_max accumulated from -VLARGE. -/
def xmaxOf (alist : List Vatom) : ℝ :=
  (alist.map fun a => a.pos.x).foldl max (-VLARGE)

/-- y_min accumulated from VLARGE. -/
def yminOf (alist : List Vatom) : ℝ :=
  (alist.map fun a => a.pos.y).foldl min VLARGE

/-- y_max accumulated from -VLARGE. -/
def ymaxOf (alist : List Vatom) : ℝ :=
  (alist.map fun a => a.pos.y).foldl max (-VLARGE)

/-- z_min accumulated from VLARGE. -/
def zminOf (alist : List Vatom) : ℝ :=
  (alist.map fun a => a.pos.z).foldl min VLARGE

/-- z_max accumulated from -VLARGE. -/
def zmaxOf (alist : List Vatom) : ℝ :=
  (alist.map fun a => a.pos.z).foldl max (-VLARGE)

/-- Grid spacing along one axis: (extent + 2.84*(rmax+max_radius))/(dim-1). -/
def spacingOf (lo hi rmax mr : ℝ) (dim : ℤ) : ℝ :=
  (hi - lo + 2.84 * (rmax + mr)) / ((dim : ℝ) - 1)

/-- Grid lower corner along one axis: min - 1.42*(rmax+max_radius). -/
def cornerOf (lo rmax mr : ℝ) : ℝ := lo - 1.42 * (rmax + mr)

/-- The clamped inclusive cell-index range an inflated atom spans along
one axis: max(floor((coord-rtot)/h), 0) ≤ idx ≤ min(ceil((coord+rtot)/h),
dim-1), with coord in the grid frame. -/
def coverRange (coord rtot h : ℝ) (dim : ℤ) (idx : ℤ) : Prop :=
  max ⌊(coord - rtot) / h⌋ 0 ≤ idx ∧ idx ≤ min ⌈(coord + rtot) / h⌉ (dim - 1)

/-- Atom i is assigned to cell (ii,jj,kk) by both constructor passes. -/
def coversP (alist : List Vatom) (mr hx hy hz lcx lcy lcz : ℝ)
    (nx ny nz : ℤ) (i : ℕ) (ii jj kk : ℤ) : Prop :=
  coverRange ((getAtom alist i).pos.x - lcx) ((getAtom alist i).radius + mr)
      hx nx ii ∧
  coverRange ((getAtom alist i).pos.y - lcy) ((getAtom alist i).radius + mr)
      hy ny jj ∧
  coverRange ((getAtom alist i).pos.z - lcz) ((getAtom alist i).radius + mr)
      hz nz kk

/-- Atom i is assigned to cell (ii,jj,kk) of the built engine. -/
def coversV (v : Vacc) (i : ℕ) (ii jj kk : ℤ) : Prop :=
  coversP v.alist v.max_radius v.hx v.hy v.hzed v.lc.x v.lc.y v.lc.z
    v.nx v.ny v.nz i ii jj kk

/-- The engine built on the success path of Vacc_ctor2: auto bounding box
from the atom extents, sphere from Vacc_sphere, and the two-pass bucket
fill, which appends atom indices in increasing order, i.e. produces the
filter of the index range by the covering test. -/
def mkVacc (alist : List Vatom) (mr : ℝ) (nx ny nz : ℤ) (ns : ℕ) : Vacc :=
  { alist := alist
    max_radius := mr
    nx := nx
    ny := ny
    nz := nz
    hx := spacingOf (xminOf alist) (xmaxOf alist) (rmaxOf alist) mr nx
    hy := spacingOf (yminOf alist) (ymaxOf alist) (rmaxOf alist) mr ny
    hzed := spacingOf (zminOf alist) (zmaxOf alist) (rmaxOf alist) mr nz
    lc := ⟨cornerOf (xminOf alist) (rmaxOf alist) mr,
           cornerOf (yminOf alist) (rmaxOf alist) mr,
           cornerOf (zminOf alist) (rmaxOf alist) mr⟩
    sphere := (Vacc_sphere ns).1
    buckets := fun ii jj kk =>
      (List.range alist.length).filter fun i =>
        decide (coversP alist mr
          (spacingOf (xminOf alist) (xmaxOf alist) (rmaxOf alist) mr nx)
          (spacingOf (yminOf alist) (ymaxOf alist) (rmaxOf alist) mr ny)
          (spacingOf (zminOf alist) (zmaxOf alist) (rmaxOf alist) mr nz)
          (cornerOf (xminOf alist) (rmaxOf alist) mr)
          (cornerOf (yminOf alist) (rmaxOf alist) mr)
          (cornerOf (zminOf alist) (rmaxOf alist) mr)
          nx ny nz i ii jj kk) }

/-- Vacc_ctor2: fails (returns 0) unless nx, ny, nz are all at least 3;
otherwise builds the engine. -/
def Vacc_ctor2 (alist : List Vatom) (mr : ℝ) (nx ny nz : ℤ) (ns : ℕ) :
    Option Vacc :=
  if nx < 3 ∨ ny < 3 ∨ nz < 3 then none
  else some (mkVacc alist mr nx ny nz ns)

/-- Clamp a coordinate into an interval. -/
def clampR (a lo hi : ℝ) : ℝ := max lo (min a hi)

/-- Lower corner of the axis-aligned box of cell (ii,jj,kk), in world
coordinates. -/
def cellBoxLo (v : Vacc) (ii jj kk : ℤ) : Vec3 :=
  ⟨v.lc.x + (ii : ℝ) * v.hx, v.lc.y + (jj : ℝ) * v.hy,
    v.lc.z + (kk : ℝ) * v.hzed⟩

/-- Upper corner of the axis-aligned box of cell (ii,jj,kk), in world
coordinates. -/
def cellBoxHi (v : Vacc) (ii jj kk : ℤ) : Vec3 :=
  ⟨v.lc.x + ((ii : ℝ) + 1) * v.hx, v.lc.y + ((jj : ℝ) + 1) * v.hy,
    v.lc.z + ((kk : ℝ) + 1) * v.hzed⟩

/-- Written from the words of the spec for the bucket invariant: a sphere
intersects a closed axis-aligned box iff the distance from its centre to
the box (realised at the clamped point) is at most the sphere radius. -/
def sphereIntersectsBox (ctr : Vec3) (r : ℝ) (lo hi : Vec3) : Prop :=
  dist2 ctr ⟨clampR ctr.x lo.x hi.x, clampR ctr.y lo.y hi.y,
    clampR ctr.z lo.z hi.z⟩ ≤ r ^ 2

/-- A small hand-assembled engine used to witness the general theorems:
one atom of radius 2 at the origin, a 100-cell grid of unit spacing with
lower corner (-50,-50,-50), max probe radius 5, no sphere points, and
every bucket holding atom 0. -/
def Vsimple : Vacc :=
  { alist := [⟨⟨0, 0, 0⟩, 2⟩]
    max_radius := 5
    nx := 100
    ny := 100
    nz := 100
    hx := 1
    hy := 1
    hzed := 1
    lc := ⟨-50, -50, -50⟩
    sphere := []
    buckets := fun _ _ _ => [0] }

/-- Point of the ambiguous annulus of the witness engine. -/
def pC5 : Vec3 := ⟨5 / 2, 0, 0⟩

/-- Accessible point for the C6 witness. -/
def pC6 : Vec3 := ⟨10, 0, 0⟩

/-- Engine holding a single radius-1 atom at the origin, for the C9
witness. -/
def Vspl : Vacc :=
  { alist := [⟨⟨0, 0, 0⟩, 1⟩]
    max_radius := 5
    nx := 3
    ny := 3
    nz := 3
    hx := 1
    hy := 1
    hzed := 1
    lc := ⟨0, 0, 0⟩
    sphere := []
    buckets := fun _ _ _ => [] }

/-- Engine holding a single radius-1/2 atom at the origin, for the C1
witness. -/
def VsplSmall : Vacc :=
  { alist := [⟨⟨0, 0, 0⟩, 1 / 2⟩]
    max_radius := 5
    nx := 3
    ny := 3
    nz := 3
    hx := 1
    hy := 1
    hzed := 1
    lc := ⟨0, 0, 0⟩
    sphere := []
    buckets := fun _ _ _ => [] }

/-- One zero-radius atom at the origin: the C2 counterexample atom list. -/
def atomsC2 : List Vatom := [⟨⟨0, 0, 0⟩, 0⟩]

/-- The engine Vacc_ctor2 builds from atomsC2 with max probe radius 1, a
3x3x3 grid and sphere target 1. -/
def VC2 : Vacc := mkVacc atomsC2 1 3 3 3 1

/-- One radius-1 atom at the origin: the C3 counterexample atom list. -/
def atomsC3 : List Vatom := [⟨⟨0, 0, 0⟩, 1⟩]

/-- The engine built from atomsC3 with max probe radius 1, a 3x3x3 grid
and sphere target 1 (whose generated sphere set is empty). -/
def VC3 : Vacc := mkVacc atomsC3 1 3 3 3 1

/-- A far off-grid point for the C3 counterexample. -/
def pC3 : Vec3 := ⟨100, 0, 0⟩

/-- Two coincident radius-2 atoms at the origin. -/
def atomsTwo : List Vatom := [⟨⟨0, 0, 0⟩, 2⟩, ⟨⟨0, 0, 0⟩, 2⟩]

/-- One radius-2 atom at the origin. -/
def atomsOne : List Vatom := [⟨⟨0, 0, 0⟩, 2⟩]

/-- Engine built from the two coincident atoms (max probe radius 1,
3x3x3 grid, sphere target 4). -/
def VCtwo : Vacc := mkVacc atomsTwo 1 3 3 3 4

/-- Engine built from the single atom with the same parameters. -/
def VCone : Vacc := mkVacc atomsOne 1 3 3 3 4

/-- Query point just inside both smoothing windows of the two coincident
atoms, for the C10 counterexample. -/
def pC10 : Vec3 := ⟨1 + 1 / 10 ^ 7, 0, 0⟩

/-- The tiny per-atom spline factor at pC10: the smoothstep at
sm = 1/10^7 with unit window. -/
def vC10 : ℝ := 3 / 4 * (1 / 10 ^ 7) ^ 2 - 1 / 4 * (1 / 10 ^ 7) ^ 3

/-- The full-sphere SASA value of an unoccluded atom of radius R probed
at radius srad, as Vacc_atomSASA computes it when every sample is
accessible. -/
def fullSASA (ns : ℕ) (R srad : ℝ) : ℝ :=
  (((Vacc_sphere ns).1.length : ℝ) / ((Vacc_sphere ns).1.length : ℝ)) * 4 *
    Real.pi * (R + srad) * (R + srad)

/-- Evaluation rule for the integer floor of a real number. -/
theorem floorEval {r : ℝ} {z : ℤ} (h1 : (z : ℝ) ≤ r) (h2 : r < z + 1) :
    ⌊r⌋ = z :=
  Int.floor_eq_iff.mpr ⟨h1, h2⟩

/-- Evaluation rule for the integer ceiling of a real number. -/
theorem ceilEval {r : ℝ} {z : ℤ} (h1 : (z : ℝ) - 1 < r) (h2 : r ≤ z) :
    ⌈r⌉ = z :=
  Int.ceil_eq_iff.mpr ⟨h1, h2⟩

/-- Evaluation rule for rounding a real number. -/
theorem roundEval {r : ℝ} {z : ℤ} (h1 : (z : ℝ) ≤ r + 1 / 2)
    (h2 : r + 1 / 2 < z + 1) : round r = z := by
  rw [round_eq]; exact floorEval h1 h2

/-- Evaluation rule for the C truncation of a nonnegative real number. -/
theorem ctruncEval {r : ℝ} {z : ℤ} (h0 : 0 ≤ r) (h1 : (z : ℝ) ≤ r)
    (h2 : r < z + 1) : ctrunc r = z := by
  rw [ctrunc, if_pos h0]; exact floorEval h1 h2

/-- C5: wherever the hard-sphere test reports accessible and the inflated
test reports inaccessible (the ambiguous annulus), Vacc_molAcc and
Vacc_fastMolAcc return the same value. -/
theorem C5_molAcc_eq_fastMolAcc (v : Vacc) (c : Vec3) (r : ℝ)
    (hhard : Vacc_vdwAcc v c = 1) (hinf : Vacc_ivdwAcc v c r = some 0) :
    Vacc_molAcc v c r = Vacc_fastMolAcc v c r := by
  rw [Vacc_ivdwAcc, ivdwAccExclus] at hinf
  by_cases hr : v.max_radius < r
  · rw [if_pos hr] at hinf; exact absurd hinf (by simp)
  · rw [if_neg hr] at hinf
    have hpure : ivdwPure v c r (-1) = 0 := Option.some.inj hinf
    by_cases hs : v.sphere = []
    · have hex : ¬ ∃ u ∈ v.sphere,
          ivdwPure v (samplePoint c r u) r (-1) ≠ 0 := by simp [hs]
      rw [Vacc_molAcc, Vacc_fastMolAcc, if_pos hs, if_neg hr, hpure,
        if_neg (by norm_num : ¬ (0 : ℝ) = 1), hhard,
        if_neg (by norm_num : ¬ (1 : ℝ) = 0), if_neg hex]
    · rw [Vacc_molAcc, Vacc_fastMolAcc, if_neg hs, if_neg hr, if_neg hr,
        hpure, if_neg (by norm_num : ¬ (0 : ℝ) = 1), hhard,
        if_neg (by norm_num : ¬ (1 : ℝ) = 0)]

/-- Witness for C5 at a concrete annulus point of the witness engine. -/
theorem C5_witness :
    Vacc_vdwAcc Vsimple pC5 = 1 ∧ Vacc_ivdwAcc Vsimple pC5 1 = some 0 ∧
      Vacc_molAcc Vsimple pC5 1 = Vacc_fastMolAcc Vsimple pC5 1 := by
  have hcells : cellI Vsimple pC5 = 52 ∧ cellJ Vsimple pC5 = 50 ∧
      cellK Vsimple pC5 = 50 := by
    refine ⟨?_, ?_, ?_⟩ <;>
      [rw [cellI]; rw [cellJ]; rw [cellK]] <;>
      exact ctruncEval (by norm_num [Vsimple, pC5])
        (by norm_num [Vsimple, pC5]) (by norm_num [Vsimple, pC5])
  have hgrid : ¬ offGrid Vsimple pC5 := by
    rw [offGrid, hcells.1, hcells.2.1, hcells.2.2]
    norm_num [Vsimple]
  have h1 : Vacc_vdwAcc Vsimple pC5 = 1 := by
    rw [Vacc_vdwAcc, if_neg hgrid, if_neg]
    rw [bucketAt, hcells.1, hcells.2.1, hcells.2.2]
    norm_num [Vsimple, pC5, dist2, getAtom]
  have h2 : Vacc_ivdwAcc Vsimple pC5 1 = some 0 := by
    rw [Vacc_ivdwAcc, ivdwAccExclus, if_neg (by norm_num [Vsimple])]
    rw [ivdwPure, if_neg hgrid, if_pos]
    rw [bucketAt, hcells.1, hcells.2.1, hcells.2.2]
    refine ⟨0, by simp [Vsimple], by norm_num, ?_, ?_⟩ <;>
      norm_num [Vsimple, pC5, dist2, getAtom]
  exact ⟨h1, h2, C5_molAcc_eq_fastMolAcc Vsimple pC5 1 h1 h2⟩

/-- C6: for a fixed engine and point, accessibility under the inflated
predicate is antitone in the probe radius: accessible at the larger
radius implies accessible at any smaller nonnegative radius. -/
theorem C6_ivdw_monotone (v : Vacc) (c : Vec3) (rS rB : ℝ)
    (h0 : 0 ≤ rS) (hlt : rS < rB) (hmax : rB ≤ v.max_radius)
    (hacc : Vacc_ivdwAcc v c rB = some 1) :
    Vacc_ivdwAcc v c rS = some 1 := by
  have hrB : ¬ v.max_radius < rB := not_lt.mpr hmax
  have hrS : ¬ v.max_radius < rS := not_lt.mpr (le_trans hlt.le hmax)
  rw [Vacc_ivdwAcc, ivdwAccExclus, if_neg hrB] at hacc
  have hpureB : ivdwPure v c rB (-1) = 1 := Option.some.inj hacc
  rw [Vacc_ivdwAcc, ivdwAccExclus, if_neg hrS]
  congr 1
  rw [ivdwPure] at hpureB ⊢
  by_cases hg : offGrid v c
  · rw [if_pos hg]
  · rw [if_neg hg] at hpureB ⊢
    by_cases hex : ∃ id ∈ bucketAt v c, (id : ℤ) ≠ -1 ∧
        0 < (getAtom v.alist id).radius ∧
        dist2 (getAtom v.alist id).pos c <
          ((getAtom v.alist id).radius + rS) ^ 2
    · exfalso
      obtain ⟨id, hid, hne, hrad, hdist⟩ := hex
      have hexB : ∃ id ∈ bucketAt v c, (id : ℤ) ≠ -1 ∧
          0 < (getAtom v.alist id).radius ∧
          dist2 (getAtom v.alist id).pos c <
            ((getAtom v.alist id).radius + rB) ^ 2 := by
        refine ⟨id, hid, hne, hrad, lt_of_lt_of_le hdist ?_⟩
        exact pow_le_pow_left₀ (by linarith) (by linarith) 2
      rw [if_pos hexB] at hpureB
      norm_num at hpureB
    · rw [if_neg hex]

/-- Witness for C6 at concrete radii 1 < 2 on the witness engine. -/
theorem C6_witness :
    (0 : ℝ) ≤ 1 ∧ (1 : ℝ) < 2 ∧ (2 : ℝ) ≤ Vsimple.max_radius ∧
      Vacc_ivdwAcc Vsimple pC6 2 = some 1 ∧
      Vacc_ivdwAcc Vsimple pC6 1 = some 1 := by
  have hcells : cellI Vsimple pC6 = 60 ∧ cellJ Vsimple pC6 = 50 ∧
      cellK Vsimple pC6 = 50 := by
    refine ⟨?_, ?_, ?_⟩ <;>
      [rw [cellI]; rw [cellJ]; rw [cellK]] <;>
      exact ctruncEval (by norm_num [Vsimple, pC6])
        (by norm_num [Vsimple, pC6]) (by norm_num [Vsimple, pC6])
  have hgrid : ¬ offGrid Vsimple pC6 := by
    rw [offGrid, hcells.1, hcells.2.1, hcells.2.2]
    norm_num [Vsimple]
  have hacc : Vacc_ivdwAcc Vsimple pC6 2 = some 1 := by
    rw [Vacc_ivdwAcc, ivdwAccExclus, if_neg (by norm_num [Vsimple])]
    rw [ivdwPure, if_neg hgrid, if_neg]
    rw [bucketAt, hcells.1, hcells.2.1, hcells.2.2]
    rintro ⟨id, hid, -, -, hdist⟩
    simp only [Vsimple, List.mem_singleton] at hid
    subst hid
    norm_num [Vsimple, pC6, dist2, getAtom] at hdist
  refine ⟨by norm_num, by norm_num, by norm_num [Vsimple], hacc, ?_⟩
  exact C6_ivdw_monotone Vsimple pC6 1 2 (by norm_num) (by norm_num)
    (by norm_num [Vsimple]) hacc

/-- C7: the inflated accessibility query aborts exactly when the probe
radius exceeds the max probe radius fixed at construction; below that it
returns a 0.0 or 1.0 classification. -/
theorem C7_ivdw_error_iff (v : Vacc) (c : Vec3) (r : ℝ) (atomID : ℤ) :
    (ivdwAccExclus v c r atomID = none ↔ v.max_radius < r) ∧
      (Vacc_ivdwAcc v c r = none ↔ v.max_radius < r) ∧
      (r ≤ v.max_radius →
        ivdwAccExclus v c r atomID = some (ivdwPure v c r atomID) ∧
          (ivdwPure v c r atomID = 0 ∨ ivdwPure v c r atomID = 1)) := by
  have hval : ∀ a : ℤ, ivdwPure v c r a = 0 ∨ ivdwPure v c r a = 1 := by
    intro a
    rw [ivdwPure]
    split_ifs <;> simp
  have hiff : ivdwAccExclus v c r atomID = none ↔ v.max_radius < r := by
    rw [ivdwAccExclus]
    by_cases hr : v.max_radius < r
    · simp [hr]
    · simp [hr]
  refine ⟨hiff, ?_, ?_⟩
  · rw [Vacc_ivdwAcc, ivdwAccExclus]
    by_cases hr : v.max_radius < r
    · simp [hr]
    · simp [hr]
  · intro hr
    refine ⟨?_, hval atomID⟩
    rw [ivdwAccExclus, if_neg (not_lt.mpr hr)]

/-- Witness for C7: at radius 6 the query aborts, at radius 3 it returns
normally on the witness engine. -/
theorem C7_witness :
    (ivdwAccExclus Vsimple pC6 6 (-1) = none ↔ Vsimple.max_radius < 6) ∧
      (ivdwAccExclus Vsimple pC6 3 (-1) =
          some (ivdwPure Vsimple pC6 3 (-1)) ∧
        (ivdwPure Vsimple pC6 3 (-1) = 0 ∨ ivdwPure Vsimple pC6 3 (-1) = 1)) :=
  ⟨(C7_ivdw_error_iff Vsimple pC6 6 (-1)).1,
    (C7_ivdw_error_iff Vsimple pC6 3 (-1)).2.2 (by norm_num [Vsimple])⟩

/-- C9: the per-atom spline value applies the smoothing formula only to
atoms of radius strictly greater than 1.0, while the gradient applies it
to every atom of positive radius; hence for an atom of radius 1 at the
origin and the point (1,0,0), which lies strictly inside the smoothing
window for win = 1, infrad = 0, the gradient is the nonzero vector
(-3/2,0,0) while the per-atom value is the constant 1. -/
theorem C9_grad_value_threshold_mismatch (v : Vacc)
    (hat : getAtom v.alist 0 = ⟨⟨0, 0, 0⟩, 1⟩) :
    (∀ (w : Vacc) (c : Vec3) (win infrad : ℝ) (id : ℕ),
        (getAtom w.alist id).radius ≤ 1 →
        Vacc_splineAccAtom w c win infrad id = 1) ∧
      Vacc_splineAccGradAtom v ⟨1, 0, 0⟩ 1 0 0 = some ⟨-(3 / 2), 0, 0⟩ ∧
      ((⟨-(3 / 2), 0, 0⟩ : Vec3) ≠ ⟨0, 0, 0⟩) ∧
      Vacc_splineAccAtom v ⟨1, 0, 0⟩ 1 0 0 = 1 ∧
      (getAtom v.alist 0).radius + 0 - 1 <
        Real.sqrt (dist2 (getAtom v.alist 0).pos ⟨1, 0, 0⟩) ∧
      Real.sqrt (dist2 (getAtom v.alist 0).pos ⟨1, 0, 0⟩) <
        (getAtom v.alist 0).radius + 0 + 1 := by
  have hd : dist2 (⟨0, 0, 0⟩ : Vec3) ⟨1, 0, 0⟩ = 1 := by norm_num [dist2]
  refine ⟨?_, ?_, ?_, ?_, ?_, ?_⟩
  · intro w c win infrad id hrad
    rw [Vacc_splineAccAtom]
    simp only [if_neg (not_lt.mpr hrad)]
  · rw [Vacc_splineAccGradAtom, hat]
    simp only [hd, Real.sqrt_one]
    norm_num [Vec3.mk.injEq]
  · intro h
    have := congrArg Vec3.x h
    norm_num at this
  · rw [Vacc_splineAccAtom, hat]
    norm_num
  · rw [hat]
    simp only [hd, Real.sqrt_one]
    norm_num
  · rw [hat]
    simp only [hd, Real.sqrt_one]
    norm_num

/-- Witness for C9 on the concrete single-atom engine. -/
theorem C9_witness :
    Vacc_splineAccGradAtom Vspl ⟨1, 0, 0⟩ 1 0 0 = some ⟨-(3 / 2), 0, 0⟩ ∧
      Vacc_splineAccAtom Vspl ⟨1, 0, 0⟩ 1 0 0 = 1 := by
  have h := C9_grad_value_threshold_mismatch Vspl rfl
  exact ⟨h.2.1, h.2.2.2.1⟩

/-- C1 (recording the code bug): for an atom of radius 1/2 at the origin,
window 1/5 and inflation radius 3/10, the point (1/2,0,0) has distance
1/2 ≤ arad - win = 3/5, where the claim requires the factor 0, yet the
source returns 1.0 because it applies the smoothing formula only to
atoms of radius strictly greater than 1.0. -/
theorem C1_value_ignores_small_radius (v : Vacc)
    (hat : getAtom v.alist 0 = ⟨⟨0, 0, 0⟩, 1 / 2⟩) :
    Vacc_splineAccAtom v ⟨1 / 2, 0, 0⟩ (1 / 5) (3 / 10) 0 = 1 ∧
      Real.sqrt (dist2 (getAtom v.alist 0).pos ⟨1 / 2, 0, 0⟩) ≤
        (getAtom v.alist 0).radius + 3 / 10 - 1 / 5 ∧
      0 < (getAtom v.alist 0).radius := by
  have hd : dist2 (⟨0, 0, 0⟩ : Vec3) ⟨1 / 2, 0, 0⟩ = (1 / 2) ^ 2 := by
    norm_num [dist2]
  refine ⟨?_, ?_, ?_⟩
  · rw [Vacc_splineAccAtom, hat]
    norm_num
  · rw [hat]
    simp only [hd, Real.sqrt_sq (by norm_num : (0 : ℝ) ≤ 1 / 2)]
    norm_num
  · rw [hat]
    norm_num

/-- Witness for the C1 code-bug evaluation on the concrete engine. -/
theorem C1_witness :
    Vacc_splineAccAtom VsplSmall ⟨1 / 2, 0, 0⟩ (1 / 5) (3 / 10) 0 = 1 :=
  (C1_value_ignores_small_radius VsplSmall rfl).1

/-- Lower bound transfer into a square root. -/
theorem sqrtLB {a b : ℝ} (hb : 0 ≤ b) (h : b ^ 2 ≤ a) : b ≤ Real.sqrt a := by
  rw [show b = Real.sqrt (b ^ 2) from (Real.sqrt_sq hb).symm]
  exact Real.sqrt_le_sqrt h

/-- Upper bound transfer out of a square root. -/
theorem sqrtUB {a b : ℝ} (hb : 0 < b) (h : a < b ^ 2) : Real.sqrt a < b :=
  (Real.sqrt_lt' hb).mpr h

/-- Evaluation rule for the ring count of Vacc_sphere. -/
theorem nthetaEval {n z : ℕ}
    (h1 : (z : ℝ) ≤ Real.sqrt (Real.pi * ((n : ℝ) / 4)) + 1 / 2)
    (h2 : Real.sqrt (Real.pi * ((n : ℝ) / 4)) + 1 / 2 < (z : ℝ) + 1) :
    nthetaOf n = z := by
  rw [nthetaOf,
    roundEval (z := (z : ℤ)) (by push_cast; linarith) (by push_cast; linarith)]
  simp

/-- A target of 1 point gives a single ring. -/
theorem ntheta1 : nthetaOf 1 = 1 := by
  have hpi1 : (1 : ℝ) ≤ Real.pi := by linarith [Real.pi_gt_d6]
  have hpi9 : Real.pi < 9 := by linarith [Real.pi_lt_d2]
  have hlb : (1 / 2 : ℝ) ≤ Real.sqrt (Real.pi * (((1 : ℕ) : ℝ) / 4)) :=
    sqrtLB (by norm_num) (by push_cast; nlinarith)
  have hub : Real.sqrt (Real.pi * (((1 : ℕ) : ℝ) / 4)) < 3 / 2 :=
    sqrtUB (by norm_num) (by push_cast; nlinarith)
  exact nthetaEval (by push_cast; linarith) (by push_cast; linarith)

/-- A target of 4 points gives two rings. -/
theorem ntheta4 : nthetaOf 4 = 2 := by
  have hpi2 : (9 / 4 : ℝ) ≤ Real.pi := by linarith [Real.pi_gt_d6]
  have hpi6 : Real.pi < 25 / 4 := by linarith [Real.pi_lt_d2]
  have hlb : (3 / 2 : ℝ) ≤ Real.sqrt (Real.pi * (((4 : ℕ) : ℝ) / 4)) :=
    sqrtLB (by norm_num) (by push_cast; nlinarith)
  have hub : Real.sqrt (Real.pi * (((4 : ℕ) : ℝ) / 4)) < 5 / 2 :=
    sqrtUB (by norm_num) (by push_cast; nlinarith)
  exact nthetaEval (by push_cast; linarith) (by push_cast; linarith)

/-- The ring at the pole always gets zero azimuthal points. -/
theorem nphiZero (n : ℕ) : nphiOf n 0 = 0 := by
  have ht : thetaOf n 0 = 0 := by rw [thetaOf]; push_cast; ring
  rw [nphiOf, ht, Real.sin_zero, zero_mul, round_zero]
  rfl

/-- The pole ring is skipped. -/
theorem ringZero (n : ℕ) : ringOf n 0 = [] := by
  rw [ringOf, nphiZero]
  rfl

/-- A target of 1 point generates no points at all. -/
theorem sphere1_empty : Vacc_sphere 1 = ([], 0) := by
  rw [Vacc_sphere, ntheta1, show List.range 1 = [0] from rfl]
  simp [ringZero]

/-- The equatorial ring of the 4-point sphere has 4 points. -/
theorem nphi4_1 : nphiOf 4 1 = 4 := by
  have ht : thetaOf 4 1 = Real.pi / 2 := by
    rw [thetaOf, dthetaOf, ntheta4]; push_cast; ring
  rw [nphiOf, ht, Real.sin_pi_div_two, ntheta4]
  rw [roundEval (z := 4) (by push_cast; norm_num) (by push_cast; norm_num)]
  rfl

/-- The equatorial ring of the 4-point sphere, fully evaluated. -/
theorem ring4_1 :
    ringOf 4 1 = [⟨1, 0, 0⟩, ⟨0, 1, 0⟩, ⟨-1, 0, 0⟩, ⟨0, -1, 0⟩] := by
  have ht : thetaOf 4 1 = Real.pi / 2 := by
    rw [thetaOf, dthetaOf, ntheta4]; push_cast; ring
  rw [ringOf, nphi4_1, show List.range 4 = [0, 1, 2, 3] from rfl]
  simp only [List.map_cons, List.map_nil]
  have h0 : 2 * Real.pi / ((4 : ℕ) : ℝ) * ((0 : ℕ) : ℝ) = 0 := by
    push_cast; ring
  have h1 : 2 * Real.pi / ((4 : ℕ) : ℝ) * ((1 : ℕ) : ℝ) = Real.pi / 2 := by
    push_cast; ring
  have h2 : 2 * Real.pi / ((4 : ℕ) : ℝ) * ((2 : ℕ) : ℝ) = Real.pi := by
    push_cast; ring
  have h3 : 2 * Real.pi / ((4 : ℕ) : ℝ) * ((3 : ℕ) : ℝ) =
      Real.pi + Real.pi / 2 := by
    push_cast; ring
  simp only [h0, h1, h2, h3, ht, Real.cos_zero, Real.sin_zero,
    Real.cos_pi_div_two, Real.sin_pi_div_two, Real.cos_pi, Real.sin_pi,
    Real.cos_add, Real.sin_add]
  norm_num

/-- The 4-point sphere, fully evaluated: the four equatorial unit
vectors. -/
theorem sphere4 :
    Vacc_sphere 4 = ([⟨1, 0, 0⟩, ⟨0, 1, 0⟩, ⟨-1, 0, 0⟩, ⟨0, -1, 0⟩], 4) := by
  rw [Vacc_sphere, ntheta4, show List.range 2 = [0, 1] from rfl]
  simp [ringZero, ring4_1]

/-- Every generated quadrature point is a unit vector. -/
theorem sphere_point_unit (n : ℕ) :
    ∀ u ∈ (Vacc_sphere n).1, u.x ^ 2 + u.y ^ 2 + u.z ^ 2 = 1 := by
  intro u hu
  simp only [Vacc_sphere, List.mem_flatMap] at hu
  obtain ⟨i, hi, hu⟩ := hu
  rw [ringOf] at hu
  simp only [List.mem_map, List.mem_range] at hu
  obtain ⟨k, hk, rfl⟩ := hu
  have hth := Real.sin_sq_add_cos_sq (thetaOf n i)
  have hph := Real.sin_sq_add_cos_sq (2 * Real.pi / (nphiOf n i : ℝ) * (k : ℝ))
  linear_combination Real.sin (thetaOf n i) ^ 2 * hph + hth

/-- C8: the ring count is round(sqrt(pi*n/4)); the returned count equals
the counting-pass sum of the per-ring counts; exactly that many points
are produced; each ring produces exactly its nphi points; every produced
point is a unit vector; and the generator is deterministic. -/
theorem C8_sphere_structure (n : ℕ) :
    nthetaOf n = (round (Real.sqrt (Real.pi * ((n : ℝ) / 4)))).toNat ∧
      (Vacc_sphere n).2 = sphereCountPass n ∧
      (Vacc_sphere n).1.length = (Vacc_sphere n).2 ∧
      (∀ i, i < nthetaOf n → (ringOf n i).length = nphiOf n i) ∧
      (∀ u ∈ (Vacc_sphere n).1, u.x ^ 2 + u.y ^ 2 + u.z ^ 2 = 1) ∧
      Vacc_sphere n = Vacc_sphere n := by
  have hring : ∀ i, (ringOf n i).length = nphiOf n i := by
    intro i
    rw [ringOf, List.length_map, List.length_range]
  refine ⟨rfl, ?_, rfl, fun i _ => hring i, sphere_point_unit n, rfl⟩
  rw [Vacc_sphere, sphereCountPass]
  simp only [List.length_flatMap]
  congr 1
  exact List.map_congr_left fun i _ => hring i

/-- Witness for C8 at the concrete target 4. -/
theorem C8_witness :
    (Vacc_sphere 4).2 = sphereCountPass 4 ∧
      (ringOf 4 1).length = nphiOf 4 1 := by
  have h := C8_sphere_structure 4
  exact ⟨h.2.1, h.2.2.2.1 1 (by rw [ntheta4]; norm_num)⟩

/-- The spline product loop either computes the accumulator times the
product over the distinct not-yet-seen atoms, or stops early at a value
below VSMALL. -/
theorem splineLoop_spec (v : Vacc) (c : Vec3) (win infrad : ℝ) :
    ∀ (l seen : List ℕ) (acc : ℝ),
      splineLoop v c win infrad l seen acc =
          acc * ((distinctFirst l seen).map
            (Vacc_splineAccAtom v c win infrad)).prod ∨
        splineLoop v c win infrad l seen acc < VSMALL := by
  intro l
  induction l with
  | nil =>
      intro seen acc
      left
      rw [splineLoop, distinctFirst]
      simp
  | cons id rest ih =>
      intro seen acc
      rw [splineLoop, distinctFirst]
      by_cases hs : id ∈ seen
      · rw [if_pos hs, if_pos hs]
        exact ih seen acc
      · rw [if_neg hs, if_neg hs]
        by_cases hsmall :
            acc * Vacc_splineAccAtom v c win infrad id < VSMALL
        · right
          rw [if_pos hsmall]
          exact hsmall
        · rw [if_neg hsmall]
          rcases ih (id :: seen) (acc * Vacc_splineAccAtom v c win infrad id)
            with h | h
          · left
            rw [h, List.map_cons, List.prod_cons]
            ring
          · right
            exact h

/-- C10 (amended): Vacc_splineAcc aborts exactly when max_radius is less
than win + infrad; otherwise it returns 1.0 off the grid, and on the
grid the product of per-atom factors over the distinct atoms of the cell
bucket, except that the loop may stop early once the running product
falls below VSMALL, returning that partial product. -/
theorem C10_splineAcc_characterization (v : Vacc) (c : Vec3)
    (win infrad : ℝ) :
    (Vacc_splineAcc v c win infrad = none ↔ v.max_radius < win + infrad) ∧
      (¬ v.max_radius < win + infrad → offGrid v c →
        Vacc_splineAcc v c win infrad = some 1) ∧
      (¬ v.max_radius < win + infrad → ¬ offGrid v c →
        Vacc_splineAcc v c win infrad =
            some (splineLoop v c win infrad (bucketAt v c) [] 1) ∧
          (splineLoop v c win infrad (bucketAt v c) [] 1 =
              bucketProd v c win infrad ∨
            splineLoop v c win infrad (bucketAt v c) [] 1 < VSMALL)) := by
  refine ⟨?_, ?_, ?_⟩
  · rw [Vacc_splineAcc]
    by_cases h : v.max_radius < win + infrad
    · simp [h]
    · simp only [if_neg h]
      constructor
      · intro hc
        by_cases hg : offGrid v c
        · rw [if_pos hg] at hc
          exact absurd hc (by simp)
        · rw [if_neg hg] at hc
          exact absurd hc (by simp)
      · intro hc
        exact absurd hc h
  · intro h hg
    rw [Vacc_splineAcc, if_neg h, if_pos hg]
  · intro h hg
    rw [Vacc_splineAcc, if_neg h, if_neg hg]
    refine ⟨rfl, ?_⟩
    rcases splineLoop_spec v c win infrad (bucketAt v c) [] 1 with hsp | hsp
    · left
      rw [hsp, bucketProd, one_mul]
    · right
      exact hsp

/-- Witness for C10 on the witness engine at an off-grid point. -/
theorem C10_witness :
    Vacc_splineAcc Vsimple ⟨-100, 0, 0⟩ 1 0 = some 1 := by
  have hcell : cellI Vsimple ⟨-100, 0, 0⟩ = -50 := by
    rw [cellI, ctrunc, if_neg (by norm_num [Vsimple])]
    exact ceilEval (by norm_num [Vsimple]) (by norm_num [Vsimple])
  exact (C10_splineAcc_characterization Vsimple ⟨-100, 0, 0⟩ 1 0).2.1
    (by norm_num [Vsimple]) (Or.inl (by rw [hcell]; norm_num))

/-- Packaged evaluation rule for the covering range. -/
theorem coverRangeEval {coord rtot h : ℝ} {dim idx lo hi : ℤ}
    (hfl : ⌊(coord - rtot) / h⌋ = lo) (hcl : ⌈(coord + rtot) / h⌉ = hi)
    (h1 : max lo 0 ≤ idx) (h2 : idx ≤ min hi (dim - 1)) :
    coverRange coord rtot h dim idx :=
  ⟨by rw [hfl]; exact h1, by rw [hcl]; exact h2⟩

/-- Grid spacings and corners of the engine built from the two
coincident radius-2 atoms: spacing 4.26, lower corner -4.26 on each
axis. -/
theorem atomsTwo_spacing :
    spacingOf (xminOf atomsTwo) (xmaxOf atomsTwo) (rmaxOf atomsTwo) 1 3 =
        213 / 50 ∧
      spacingOf (yminOf atomsTwo) (ymaxOf atomsTwo) (rmaxOf atomsTwo) 1 3 =
        213 / 50 ∧
      spacingOf (zminOf atomsTwo) (zmaxOf atomsTwo) (rmaxOf atomsTwo) 1 3 =
        213 / 50 ∧
      cornerOf (xminOf atomsTwo) (rmaxOf atomsTwo) 1 = -(213 / 50) ∧
      cornerOf (yminOf atomsTwo) (rmaxOf atomsTwo) 1 = -(213 / 50) ∧
      cornerOf (zminOf atomsTwo) (rmaxOf atomsTwo) 1 = -(213 / 50) := by
  refine ⟨?_, ?_, ?_, ?_, ?_, ?_⟩ <;>
    norm_num [spacingOf, cornerOf, xminOf, xmaxOf, yminOf, ymaxOf, zminOf,
      zmaxOf, rmaxOf, atomsTwo, VLARGE, min_def, max_def]

/-- Every cell of the 3x3x3 grid with indices in range holds both atoms
in its bucket. -/
theorem VCtwo_bucket (ii jj kk : ℤ) (hii : 0 ≤ ii ∧ ii ≤ 2)
    (hjj : 0 ≤ jj ∧ jj ≤ 2) (hkk : 0 ≤ kk ∧ kk ≤ 2) :
    VCtwo.buckets ii jj kk = [0, 1] := by
  obtain ⟨hsx, hsy, hsz, hcx, hcy, hcz⟩ := atomsTwo_spacing
  have hcr : ∀ idx : ℤ, 0 ≤ idx → idx ≤ 2 →
      coverRange (0 - -(213 / 50)) (2 + 1) (213 / 50) 3 idx := by
    intro idx h0 h2
    refine coverRangeEval (floorEval (z := 0) ?_ ?_)
      (ceilEval (z := 2) ?_ ?_) ?_ ?_
    · norm_num
    · norm_num
    · norm_num
    · norm_num
    · simpa using h0
    · rw [show min (2 : ℤ) (3 - 1) = 2 by norm_num]
      exact h2
  have hcov : ∀ i ∈ List.range atomsTwo.length,
      (decide (coversP atomsTwo 1
        (spacingOf (xminOf atomsTwo) (xmaxOf atomsTwo) (rmaxOf atomsTwo) 1 3)
        (spacingOf (yminOf atomsTwo) (ymaxOf atomsTwo) (rmaxOf atomsTwo) 1 3)
        (spacingOf (zminOf atomsTwo) (zmaxOf atomsTwo) (rmaxOf atomsTwo) 1 3)
        (cornerOf (xminOf atomsTwo) (rmaxOf atomsTwo) 1)
        (cornerOf (yminOf atomsTwo) (rmaxOf atomsTwo) 1)
        (cornerOf (zminOf atomsTwo) (rmaxOf atomsTwo) 1)
        3 3 3 i ii jj kk)) = true := by
    intro i hi
    rw [decide_eq_true_eq, hsx, hsy, hsz, hcx, hcy, hcz]
    have hat : getAtom atomsTwo i = ⟨⟨0, 0, 0⟩, 2⟩ := by
      rw [List.mem_range, show atomsTwo.length = 2 from rfl] at hi
      interval_cases i <;> rfl
    rw [coversP, hat]
    exact ⟨hcr ii hii.1 hii.2, hcr jj hjj.1 hjj.2, hcr kk hkk.1 hkk.2⟩
  exact (List.filter_eq_self.mpr hcov).trans rfl

/-- Cell coordinates of the C10 query point in the two-atom engine. -/
theorem pC10_cells :
    cellI VCtwo pC10 = 1 ∧ cellJ VCtwo pC10 = 1 ∧ cellK VCtwo pC10 = 1 := by
  obtain ⟨hsx, hsy, hsz, hcx, hcy, hcz⟩ := atomsTwo_spacing
  refine ⟨?_, ?_, ?_⟩
  · rw [cellI, show VCtwo.lc.x = -(213 / 50) from hcx,
      show VCtwo.hx = 213 / 50 from hsx]
    exact ctruncEval (by norm_num [pC10]) (by norm_num [pC10])
      (by norm_num [pC10])
  · rw [cellJ, show VCtwo.lc.y = -(213 / 50) from hcy,
      show VCtwo.hy = 213 / 50 from hsy]
    exact ctruncEval (by norm_num [pC10]) (by norm_num [pC10])
      (by norm_num [pC10])
  · rw [cellK, show VCtwo.lc.z = -(213 / 50) from hcz,
      show VCtwo.hzed = 213 / 50 from hsz]
    exact ctruncEval (by norm_num [pC10]) (by norm_num [pC10])
      (by norm_num [pC10])

/-- Both per-atom factors at the C10 query point equal the tiny
smoothstep value vC10. -/
theorem VCtwo_factor (i : ℕ) (hi : i < 2) :
    Vacc_splineAccAtom VCtwo pC10 1 0 i = vC10 := by
  have hat : getAtom VCtwo.alist i = ⟨⟨0, 0, 0⟩, 2⟩ := by
    interval_cases i <;> rfl
  have hd : dist2 (⟨0, 0, 0⟩ : Vec3) pC10 = (1 + 1 / 10 ^ 7) ^ 2 := by
    simp only [dist2, pC10]
    norm_num
  simp only [Vacc_splineAccAtom, hat, hd,
    Real.sqrt_sq (show (0 : ℝ) ≤ 1 + 1 / 10 ^ 7 by norm_num)]
  rw [if_pos (show (1 : ℝ) < 2 by norm_num),
    if_neg (show ¬ (1 + 1 / 10 ^ 7 : ℝ) ≤ max 0 (2 + 0 - 1) by
      rw [show max (0 : ℝ) (2 + 0 - 1) = 1 by norm_num]; norm_num),
    if_neg (show ¬ (2 + 0 + 1 : ℝ) ≤ 1 + 1 / 10 ^ 7 by norm_num)]
  norm_num [vC10]

/-- C10 counterexample: on the constructed two-coincident-atom engine,
Vacc_splineAcc returns the first tiny factor alone (short circuit below
VSMALL), not the product of the factors over the distinct bucket atoms. -/
theorem C10_short_circuit_counterexample :
    Vacc_ctor2 atomsTwo 1 3 3 3 4 = some VCtwo ∧
      Vacc_splineAcc VCtwo pC10 1 0 = some vC10 ∧
      bucketProd VCtwo pC10 1 0 = vC10 * vC10 ∧
      vC10 ≠ vC10 * vC10 := by
  have hcells := pC10_cells
  have hgrid : ¬ offGrid VCtwo pC10 := by
    rw [offGrid, hcells.1, hcells.2.1, hcells.2.2]
    norm_num [show VCtwo.nx = 3 from rfl, show VCtwo.ny = 3 from rfl,
      show VCtwo.nz = 3 from rfl]
  have hbuck : bucketAt VCtwo pC10 = [0, 1] := by
    rw [bucketAt, hcells.1, hcells.2.1, hcells.2.2]
    exact VCtwo_bucket 1 1 1 (by norm_num) (by norm_num) (by norm_num)
  refine ⟨?_, ?_, ?_, ?_⟩
  · rw [Vacc_ctor2, if_neg (by norm_num)]
    rfl
  · rw [Vacc_splineAcc,
      if_neg (show ¬ VCtwo.max_radius < 1 + 0 by
        norm_num [show VCtwo.max_radius = 1 from rfl]),
      if_neg hgrid, hbuck, splineLoop, if_neg (List.not_mem_nil 0),
      VCtwo_factor 0 (by norm_num),
      if_pos (show (1 : ℝ) * vC10 < VSMALL by norm_num [vC10, VSMALL]),
      one_mul]
  · have hdf : distinctFirst [0, 1] [] = [0, 1] := by
      rw [distinctFirst, if_neg (List.not_mem_nil 0), distinctFirst,
        if_neg (by simp), distinctFirst]
    rw [bucketProd, hbuck, hdf, List.map_cons, List.map_cons, List.map_nil,
      VCtwo_factor 0 (by norm_num), VCtwo_factor 1 (by norm_num),
      List.prod_cons, List.prod_cons, List.prod_nil]
    ring
  · norm_num [vC10]

/-- In an engine built from atoms that all share position p and radius R,
every SASA sample of every atom is accessible (samples sit exactly on
the other inflated spheres, and the occlusion test is strict), so the
accessible count is the full sphere size. -/
theorem coincident_sasaCount (alist : List Vatom) (p : Vec3) (R mr srad : ℝ)
    (nx ny nz : ℤ) (ns : ℕ)
    (hall : ∀ i, i < alist.length → getAtom alist i = ⟨p, R⟩)
    (iatom : ℕ) (hi : iatom < alist.length) :
    sasaCount (mkVacc alist mr nx ny nz ns) srad iatom =
      (Vacc_sphere ns).1.length := by
  rw [sasaCount]
  have halist : (mkVacc alist mr nx ny nz ns).alist = alist := rfl
  have hsph : (mkVacc alist mr nx ny nz ns).sphere = (Vacc_sphere ns).1 := rfl
  rw [halist, hall iatom hi, hsph]
  have hcov : ∀ u ∈ (Vacc_sphere ns).1,
      (decide (ivdwPure (mkVacc alist mr nx ny nz ns)
        (samplePoint (⟨p, R⟩ : Vatom).pos ((⟨p, R⟩ : Vatom).radius + srad) u)
        srad (iatom : ℤ) ≠ 0)) = true := by
    intro u hu
    rw [decide_eq_true_eq, ivdwPure]
    by_cases hg : offGrid (mkVacc alist mr nx ny nz ns)
        (samplePoint (⟨p, R⟩ : Vatom).pos ((⟨p, R⟩ : Vatom).radius + srad) u)
    · rw [if_pos hg]
      norm_num
    · rw [if_neg hg, if_neg]
      · norm_num
      rintro ⟨id, hid, -, -, hdist⟩
      have hidlt : id < alist.length := by
        have hmem := (List.mem_filter.mp hid).1
        exact List.mem_range.mp hmem
      rw [halist, hall id hidlt] at hdist
      have hunit := sphere_point_unit ns u hu
      simp only [dist2, samplePoint] at hdist
      nlinarith [hdist, hunit]
  rw [List.filter_eq_self.mpr hcov]

/-- The per-atom SASA value of any atom of a coincident family is the
full-sphere value. -/
theorem coincident_sasaVal (alist : List Vatom) (p : Vec3) (R mr srad : ℝ)
    (nx ny nz : ℤ) (ns : ℕ)
    (hall : ∀ i, i < alist.length → getAtom alist i = ⟨p, R⟩)
    (iatom : ℕ) (hi : iatom < alist.length) :
    sasaVal (mkVacc alist mr nx ny nz ns) srad iatom = fullSASA ns R srad := by
  rw [sasaVal, coincident_sasaCount alist p R mr srad nx ny nz ns hall iatom hi,
    show (mkVacc alist mr nx ny nz ns).alist = alist from rfl, hall iatom hi,
    fullSASA]
  rfl

/-- The isolated coincident atom gets the full-sphere SASA. -/
theorem one_atom_sasa (p : Vec3) (R mr srad : ℝ) (nx ny nz : ℤ) (ns : ℕ)
    (hs : srad ≤ mr) :
    Vacc_atomSASA (mkVacc [⟨p, R⟩] mr nx ny nz ns) srad 0 =
      some (fullSASA ns R srad) := by
  have hall : ∀ i, i < ([⟨p, R⟩] : List Vatom).length →
      getAtom [⟨p, R⟩] i = ⟨p, R⟩ := by
    intro i hi
    have : i = 0 := by simpa using Nat.lt_one_iff.mp (by simpa using hi)
    subst this
    rfl
  rw [Vacc_atomSASA, if_neg, coincident_sasaVal [⟨p, R⟩] p R mr srad
    nx ny nz ns hall 0 (by norm_num)]
  rintro ⟨-, hlt⟩
  exact absurd hlt (not_lt.mpr hs)

/-- The two coincident atoms together get twice the full-sphere SASA. -/
theorem two_atom_total (p : Vec3) (R mr srad : ℝ) (nx ny nz : ℤ) (ns : ℕ)
    (hs : srad ≤ mr) :
    Vacc_totalSASA (mkVacc [⟨p, R⟩, ⟨p, R⟩] mr nx ny nz ns) srad =
      some (2 * fullSASA ns R srad) := by
  have hall : ∀ i, i < ([⟨p, R⟩, ⟨p, R⟩] : List Vatom).length →
      getAtom [⟨p, R⟩, ⟨p, R⟩] i = ⟨p, R⟩ := by
    intro i hi
    have h2 : i < 2 := by simpa using hi
    interval_cases i <;> rfl
  rw [Vacc_totalSASA, if_neg]
  · rw [show (mkVacc [⟨p, R⟩, ⟨p, R⟩] mr nx ny nz ns).alist.length = 2
        from rfl,
      show List.range 2 = [0, 1] from rfl, List.map_cons, List.map_cons,
      List.map_nil, List.sum_cons, List.sum_cons, List.sum_nil,
      coincident_sasaVal [⟨p, R⟩, ⟨p, R⟩] p R mr srad nx ny nz ns hall 0
        (by norm_num),
      coincident_sasaVal [⟨p, R⟩, ⟨p, R⟩] p R mr srad nx ny nz ns hall 1
        (by norm_num)]
    congr 1
    ring
  rintro ⟨-, -, hlt⟩
  exact absurd hlt (not_lt.mpr hs)

/-- C4 (amended): for two atoms with identical position and radius,
TotalSASA is twice (not equal to) the SASA of the corresponding isolated
single atom, because each probe-sphere sample of one atom lies exactly
on the inflated sphere of the other and the strict-inequality occlusion
test leaves it accessible. -/
theorem C4_totalSASA_twice_single (p : Vec3) (R mr srad : ℝ)
    (nx ny nz : ℤ) (ns : ℕ) (v2 v1 : Vacc)
    (h2 : Vacc_ctor2 [⟨p, R⟩, ⟨p, R⟩] mr nx ny nz ns = some v2)
    (h1 : Vacc_ctor2 [⟨p, R⟩] mr nx ny nz ns = some v1)
    (hs : srad ≤ mr) :
    ∃ a, Vacc_atomSASA v1 srad 0 = some a ∧
      Vacc_totalSASA v2 srad = some (2 * a) := by
  rw [Vacc_ctor2] at h1 h2
  split_ifs at h1 h2 with hd
  obtain rfl : v1 = mkVacc [⟨p, R⟩] mr nx ny nz ns :=
    (Option.some.inj h1).symm
  obtain rfl : v2 = mkVacc [⟨p, R⟩, ⟨p, R⟩] mr nx ny nz ns :=
    (Option.some.inj h2).symm
  exact ⟨fullSASA ns R srad, one_atom_sasa p R mr srad nx ny nz ns hs,
    two_atom_total p R mr srad nx ny nz ns hs⟩

/-- Witness for the amended C4 on the concrete constructed engines. -/
theorem C4_witness :
    ∃ a, Vacc_atomSASA VCone 1 0 = some a ∧
      Vacc_totalSASA VCtwo 1 = some (2 * a) :=
  C4_totalSASA_twice_single ⟨0, 0, 0⟩ 2 1 1 3 3 3 4 VCtwo VCone
    (by rw [Vacc_ctor2, if_neg (by norm_num)]; rfl)
    (by rw [Vacc_ctor2, if_neg (by norm_num)]; rfl) (by norm_num)

/-- C4 counterexample: on the constructed engines, the two coincident
radius-2 atoms have total SASA 72*pi while the isolated atom has SASA
36*pi, and those differ. -/
theorem C4_double_counting_counterexample :
    Vacc_ctor2 atomsTwo 1 3 3 3 4 = some VCtwo ∧
      Vacc_ctor2 atomsOne 1 3 3 3 4 = some VCone ∧
      Vacc_totalSASA VCtwo 1 = some (72 * Real.pi) ∧
      Vacc_atomSASA VCone 1 0 = some (36 * Real.pi) ∧
      (72 * Real.pi : ℝ) ≠ 36 * Real.pi := by
  have hfull : fullSASA 4 2 1 = 36 * Real.pi := by
    rw [fullSASA, show (Vacc_sphere 4).1.length = 4 by rw [sphere4]; rfl]
    norm_num
    ring
  refine ⟨?_, ?_, ?_, ?_, ?_⟩
  · rw [Vacc_ctor2, if_neg (by norm_num)]
    rfl
  · rw [Vacc_ctor2, if_neg (by norm_num)]
    rfl
  · have h := two_atom_total ⟨0, 0, 0⟩ 2 1 1 3 3 3 4 (by norm_num)
    rw [hfull] at h
    calc Vacc_totalSASA VCtwo 1
        = some (2 * (36 * Real.pi)) := h
      _ = some (72 * Real.pi) := by
          rw [show (2 : ℝ) * (36 * Real.pi) = 72 * Real.pi by ring]
  · have h := one_atom_sasa ⟨0, 0, 0⟩ 2 1 1 3 3 3 4 (by norm_num)
    rw [hfull] at h
    exact h
  · have hpi := Real.pi_pos
    intro h
    nlinarith [h, hpi]

/-- C2 (amended): in a constructed engine, an atom index is present in a
cell bucket exactly when the cell index lies, on every axis, in the
clamped floor/ceil range spanned by the inflated atom (the bounding-cube
test of the two constructor passes, not exact sphere/box intersection);
buckets list indices in ascending order; and each bucket has exactly the
size counted by the first pass. -/
theorem C2_bucket_range_characterization (alist : List Vatom) (mr : ℝ)
    (nx ny nz : ℤ) (ns : ℕ) (v : Vacc)
    (h : Vacc_ctor2 alist mr nx ny nz ns = some v) :
    (∀ (i : ℕ) (ii jj kk : ℤ), i ∈ v.buckets ii jj kk ↔
        i < alist.length ∧ coversV v i ii jj kk) ∧
      (∀ ii jj kk : ℤ, List.Pairwise (· < ·) (v.buckets ii jj kk)) ∧
      (∀ ii jj kk : ℤ, (v.buckets ii jj kk).length =
        (List.range alist.length).countP
          (fun i => decide (coversV v i ii jj kk))) := by
  rw [Vacc_ctor2] at h
  split_ifs at h with hd
  obtain rfl : v = mkVacc alist mr nx ny nz ns := (Option.some.inj h).symm
  have hb : ∀ ii jj kk : ℤ,
      (mkVacc alist mr nx ny nz ns).buckets ii jj kk =
        (List.range alist.length).filter
          (fun i => decide
            (coversV (mkVacc alist mr nx ny nz ns) i ii jj kk)) := by
    intro ii jj kk
    rfl
  refine ⟨?_, ?_, ?_⟩
  · intro i ii jj kk
    rw [hb, List.mem_filter, List.mem_range, decide_eq_true_eq]
  · intro ii jj kk
    rw [hb]
    exact (List.pairwise_lt_range alist.length).filter _
  · intro ii jj kk
    rw [hb, List.countP_eq_length_filter]

/-- Witness for the amended C2 on the concrete zero-radius-atom engine:
atom 0 sits in the bucket of cell (2,2,2) and the range test certifies
it. -/
theorem C2_witness :
    (0 ∈ VC2.buckets 2 2 2 ↔ 0 < atomsC2.length ∧ coversV VC2 0 2 2 2) ∧
      List.Pairwise (· < ·) (VC2.buckets 2 2 2) := by
  have h := C2_bucket_range_characterization atomsC2 1 3 3 3 1 VC2
    (by rw [Vacc_ctor2, if_neg (by norm_num)]; rfl)
  exact ⟨h.1 0 2 2 2, h.2.1 2 2 2⟩

/-- Grid spacing and corner of the engine built from the single
zero-radius atom: spacing 1.42, corner -1.42 on each axis. -/
theorem atomsC2_spacing :
    spacingOf (xminOf atomsC2) (xmaxOf atomsC2) (rmaxOf atomsC2) 1 3 =
        71 / 50 ∧
      spacingOf (yminOf atomsC2) (ymaxOf atomsC2) (rmaxOf atomsC2) 1 3 =
        71 / 50 ∧
      spacingOf (zminOf atomsC2) (zmaxOf atomsC2) (rmaxOf atomsC2) 1 3 =
        71 / 50 ∧
      cornerOf (xminOf atomsC2) (rmaxOf atomsC2) 1 = -(71 / 50) ∧
      cornerOf (yminOf atomsC2) (rmaxOf atomsC2) 1 = -(71 / 50) ∧
      cornerOf (zminOf atomsC2) (rmaxOf atomsC2) 1 = -(71 / 50) := by
  refine ⟨?_, ?_, ?_, ?_, ?_, ?_⟩ <;>
    norm_num [spacingOf, cornerOf, xminOf, xmaxOf, yminOf, ymaxOf, zminOf,
      zmaxOf, rmaxOf, atomsC2, VLARGE, min_def, max_def]

/-- C2 counterexample: in the constructed engine, atom 0 is in the
bucket of corner cell (2,2,2), yet its inflated sphere (radius 0 + max
probe radius 1) does not intersect the box of that cell, refuting the
claimed equivalence with exact sphere/box intersection. -/
theorem C2_bucket_not_exact_intersection :
    Vacc_ctor2 atomsC2 1 3 3 3 1 = some VC2 ∧
      0 ∈ VC2.buckets 2 2 2 ∧
      ¬ sphereIntersectsBox ⟨0, 0, 0⟩ (0 + 1) (cellBoxLo VC2 2 2 2)
        (cellBoxHi VC2 2 2 2) := by
  obtain ⟨hsx, hsy, hsz, hcx, hcy, hcz⟩ := atomsC2_spacing
  refine ⟨?_, ?_, ?_⟩
  · rw [Vacc_ctor2, if_neg (by norm_num)]
    rfl
  · have h := C2_bucket_range_characterization atomsC2 1 3 3 3 1 VC2
      (by rw [Vacc_ctor2, if_neg (by norm_num)]; rfl)
    rw [h.1 0 2 2 2]
    refine ⟨by norm_num [atomsC2], ?_⟩
    have hat : getAtom VC2.alist 0 = ⟨⟨0, 0, 0⟩, 0⟩ := rfl
    rw [coversV, coversP, hat,
      show VC2.max_radius = 1 from rfl,
      show VC2.hx = 71 / 50 from hsx, show VC2.hy = 71 / 50 from hsy,
      show VC2.hzed = 71 / 50 from hsz,
      show VC2.lc.x = -(71 / 50) from hcx,
      show VC2.lc.y = -(71 / 50) from hcy,
      show VC2.lc.z = -(71 / 50) from hcz,
      show VC2.nx = 3 from rfl, show VC2.ny = 3 from rfl,
      show VC2.nz = 3 from rfl]
    have hcr : coverRange ((0 : ℝ) - -(71 / 50)) (0 + 1) (71 / 50) 3 2 := by
      refine coverRangeEval (floorEval (z := 0) ?_ ?_)
        (ceilEval (z := 2) ?_ ?_) ?_ ?_ <;> norm_num
    exact ⟨hcr, hcr, hcr⟩
  · rw [sphereIntersectsBox, cellBoxLo, cellBoxHi,
      show VC2.hx = 71 / 50 from hsx, show VC2.hy = 71 / 50 from hsy,
      show VC2.hzed = 71 / 50 from hsz,
      show VC2.lc.x = -(71 / 50) from hcx,
      show VC2.lc.y = -(71 / 50) from hcy,
      show VC2.lc.z = -(71 / 50) from hcz]
    simp only [clampR, dist2]
    push_cast
    norm_num [min_def, max_def]

/-- C3 (amended): any point whose cell coordinates fall outside the grid
index ranges is reported fully accessible by the hard-sphere, inflated
and molecular-surface predicates, for every probe radius up to
max_radius; the fast molecular-surface predicate is excluded, since it
skips the pre-checks and (for instance with an empty quadrature set)
can return 0.0 even off the grid. -/
theorem C3_offgrid_accessible (v : Vacc) (c : Vec3) (r : ℝ)
    (hg : offGrid v c) (hr : r ≤ v.max_radius) :
    Vacc_vdwAcc v c = 1 ∧ Vacc_ivdwAcc v c r = some 1 ∧
      Vacc_molAcc v c r = some 1 := by
  have hnr : ¬ v.max_radius < r := not_lt.mpr hr
  have hpure : ivdwPure v c r (-1) = 1 := by rw [ivdwPure, if_pos hg]
  refine ⟨?_, ?_, ?_⟩
  · rw [Vacc_vdwAcc, if_pos hg]
  · rw [Vacc_ivdwAcc, ivdwAccExclus, if_neg hnr, hpure]
  · rw [Vacc_molAcc, if_neg hnr, hpure, if_pos rfl]

/-- Witness for C3 at a concrete off-grid point of the witness engine. -/
theorem C3_witness :
    Vacc_vdwAcc Vsimple ⟨-100, 0, 0⟩ = 1 ∧
      Vacc_ivdwAcc Vsimple ⟨-100, 0, 0⟩ 1 = some 1 ∧
      Vacc_molAcc Vsimple ⟨-100, 0, 0⟩ 1 = some 1 := by
  have hcell : cellI Vsimple ⟨-100, 0, 0⟩ = -50 := by
    rw [cellI, ctrunc, if_neg (by norm_num [Vsimple])]
    exact ceilEval (by norm_num [Vsimple]) (by norm_num [Vsimple])
  exact C3_offgrid_accessible Vsimple ⟨-100, 0, 0⟩ 1
    (Or.inl (by rw [hcell]; norm_num)) (by norm_num [Vsimple])

/-- Grid spacing and corner of the engine built from the single radius-1
atom: spacing 2.84, corner -2.84 on each axis. -/
theorem atomsC3_spacing :
    spacingOf (xminOf atomsC3) (xmaxOf atomsC3) (rmaxOf atomsC3) 1 3 =
        71 / 25 ∧
      spacingOf (yminOf atomsC3) (ymaxOf atomsC3) (rmaxOf atomsC3) 1 3 =
        71 / 25 ∧
      spacingOf (zminOf atomsC3) (zmaxOf atomsC3) (rmaxOf atomsC3) 1 3 =
        71 / 25 ∧
      cornerOf (xminOf atomsC3) (rmaxOf atomsC3) 1 = -(71 / 25) ∧
      cornerOf (yminOf atomsC3) (rmaxOf atomsC3) 1 = -(71 / 25) ∧
      cornerOf (zminOf atomsC3) (rmaxOf atomsC3) 1 = -(71 / 25) := by
  refine ⟨?_, ?_, ?_, ?_, ?_, ?_⟩ <;>
    norm_num [spacingOf, cornerOf, xminOf, xmaxOf, yminOf, ymaxOf, zminOf,
      zmaxOf, rmaxOf, atomsC3, VLARGE, min_def, max_def]

/-- C3 counterexample: the engine constructed with sphere target 1 has
an empty quadrature set, and Vacc_fastMolAcc then returns 0.0 even at a
far off-grid point with a valid probe radius. -/
theorem C3_fastMolAcc_offgrid_zero :
    Vacc_ctor2 atomsC3 1 3 3 3 1 = some VC3 ∧
      offGrid VC3 pC3 ∧ (1 : ℝ) ≤ VC3.max_radius ∧
      Vacc_fastMolAcc VC3 pC3 1 = some 0 ∧
      some (0 : ℝ) ≠ some (1 : ℝ) := by
  have hsph : VC3.sphere = [] := congrArg Prod.fst sphere1_empty
  refine ⟨?_, ?_, ?_, ?_, ?_⟩
  · rw [Vacc_ctor2, if_neg (by norm_num)]
    rfl
  · obtain ⟨hsx, -, -, hcx, -, -⟩ := atomsC3_spacing
    rw [offGrid]
    right
    left
    rw [cellI, show VC3.lc.x = -(71 / 25) from hcx,
      show VC3.hx = 71 / 25 from hsx,
      ctruncEval (z := 36) (by norm_num [pC3]) (by norm_num [pC3])
        (by norm_num [pC3]),
      show VC3.nx = 3 from rfl]
    norm_num
  · norm_num [show VC3.max_radius = 1 from rfl]
  · rw [Vacc_fastMolAcc, if_pos hsph]
  · simp

end



